import Mathlib

/-!
Verification development for the EOPF-Zarr raster driver subsystem described
in spec.md: URI resolution, subdataset-tree construction, geospatial
calibration, and product specialization.  The repository under study ships
only the behavioral test suite of the driver; the driver implementation is an
external collaborator.  The definitions below are therefore shallow
embeddings modelled from the specification text (section 4 of spec.md),
faithful to its algorithm descriptions, and the theorems settle the frozen
claims against those models.
-/

set_option maxHeartbeats 1000000

/-- Single quote character, written via its code point. -/
def squote : Char := Char.ofNat 39

/-- Double quote character. -/
def dquote : Char := '"'

/-- Modelled from the spec: the known URI scheme tokens of section 4.1
(http, https, ftp, s3) used by the missing URI Resolver implementation to
recognize a scheme-separator colon. -/
def schemeTokens : List (List Char) :=
  ["http".toList, "https".toList, "ftp".toList, "s3".toList]

/-- Maximal run of alphanumeric characters at the end of a character list. -/
def alnumSuffix (p : List Char) : List Char :=
  (p.reverse.takeWhile Char.isAlphanum).reverse

/-- Modelled from the spec: scheme detection of the missing URI Resolver.
A colon immediately follows a scheme token when the maximal alphanumeric run
before it is one of the known scheme tokens. -/
def isSchemeColon (p : List Char) : Bool :=
  decide (alnumSuffix p = "http".toList) ||
  decide (alnumSuffix p = "https".toList) ||
  decide (alnumSuffix p = "ftp".toList) ||
  decide (alnumSuffix p = "s3".toList)

/-- Modelled from the spec: Windows drive-letter heuristic of the missing URI
Resolver: a single ASCII letter at the start of the identifier whose colon is
immediately followed by a slash. -/
def isDriveColon (p : List Char) (t : List Char) : Bool :=
  match p with
  | [c] => c.isAlpha &&
      (match t with
       | '/' :: _ => true
       | '\\' :: _ => true
       | _ => false)
  | _ => false

/-- Modelled from the spec: a colon with preceding characters p and following
characters t is a split-point candidate when it is neither a scheme colon nor
a drive-letter colon. -/
def isCandidate (p : List Char) (t : List Char) : Bool :=
  !(isSchemeColon p) && !(isDriveColon p t)

/-- Modelled from the spec: the scan of the missing URI Resolver.  Walks the
identifier left to right; returns the split at the last candidate colon, with
everything before it and everything after it.  The first argument accumulates
the characters already consumed. -/
def findSplit : List Char → List Char → Option (List Char × List Char)
  | _, [] => none
  | pre, c :: t =>
    match findSplit (pre ++ [c]) t with
    | some r => some r
    | none =>
      if c = ':' && isCandidate pre t then some (pre, t) else none

/-- Modelled from the spec: an identifier consisting only of a scheme with no
path, which must resolve to a failure. -/
def isSchemeOnly (s : List Char) : Bool :=
  schemeTokens.any (fun tok => decide (s = tok ++ [':', '/', '/']))

/-- Error raised by the URI Resolver for empty or incomplete input. -/
inductive ResolveErr where
  | malformedIdentifier
  deriving DecidableEq, Repr

/-- Modelled from the spec: quoted-locator handling of the missing URI
Resolver.  The quote character q opened the locator; the locator body runs to
the matching quote, its internal colons are never split points, and a colon
directly after the closing quote introduces the internal subpath. -/
def resolveQuoted (q : Char) (t : List Char) :
    Except ResolveErr (List Char × List Char) :=
  let body := t.takeWhile (fun c => !(c == q))
  let rest := t.dropWhile (fun c => !(c == q))
  match rest with
  | [] => .error .malformedIdentifier
  | _ :: r =>
    match r with
    | [] => .ok (body, [])
    | c :: r2 =>
      if c = ':' then .ok (body, r2) else .error .malformedIdentifier

/-- Modelled from the spec: the missing URI Resolver, contract
resolve(identifier) = (containerLocator, internalSubpath or empty).  The
identifier is the portion after the driver token.  Splits at the last
unquoted, non-scheme, non-drive colon; empty input, a bare colon (which
yields an empty locator) and a scheme with no path are failures. -/
def resolve (s : List Char) :
    Except ResolveErr (List Char × List Char) :=
  match s with
  | [] => .error .malformedIdentifier
  | q :: t =>
    if q = dquote || q = squote then resolveQuoted q t
    else
      match findSplit [] (q :: t) with
      | some (loc, sub) =>
        if loc.isEmpty then .error .malformedIdentifier else .ok (loc, sub)
      | none =>
        if isSchemeOnly (q :: t) then .error .malformedIdentifier
        else .ok (q :: t, [])

/-- Any successful split produced by findSplit decomposes the input at a
candidate colon. -/
theorem findSplit_some (s : List Char) :
    ∀ pre loc sub, findSplit pre s = some (loc, sub) →
      ∃ l, s = l ++ ':' :: sub ∧ loc = pre ++ l ∧
        isCandidate (pre ++ l) sub = true := by
  induction s with
  | nil => intro pre loc sub h; simp [findSplit] at h
  | cons c t ih =>
    intro pre loc sub h
    unfold findSplit at h
    cases hrec : findSplit (pre ++ [c]) t with
    | some r =>
      rw [hrec] at h
      cases h
      obtain ⟨l, hl, hloc, hcand⟩ := ih (pre ++ [c]) loc sub hrec
      refine ⟨c :: l, ?_, ?_, ?_⟩
      · simp [hl]
      · simp [hloc]
      · simpa using hcand
    | none =>
      rw [hrec] at h
      by_cases hcond : (decide (c = ':') && isCandidate pre t) = true
      · rw [if_pos hcond] at h
        cases h
        rw [Bool.and_eq_true, decide_eq_true_eq] at hcond
        exact ⟨[], by simp [hcond.1], by simp, by simpa using hcond.2⟩
      · rw [if_neg hcond] at h
        exact absurd h (by simp)

/-- If the input contains no colon, findSplit finds nothing. -/
theorem findSplit_none_of_no_colon (s : List Char) :
    ∀ pre, ':' ∉ s → findSplit pre s = none := by
  induction s with
  | nil => intro pre _; rfl
  | cons c t ih =>
    intro pre hmem
    have hc : c ≠ ':' := fun h => hmem (h ▸ List.mem_cons_self c t)
    have ht : ':' ∉ t := fun h => hmem (List.mem_cons_of_mem c h)
    unfold findSplit
    rw [ih (pre ++ [c]) ht]
    simp [hc]

/-- findSplit on a colon-free path followed by a colon and a colon-free
subpath finds exactly that colon, when it is a candidate. -/
theorem findSplit_append (path sub : List Char) :
    ∀ pre, ':' ∉ path → ':' ∉ sub →
      findSplit pre (path ++ ':' :: sub) =
        if isCandidate (pre ++ path) sub then some (pre ++ path, sub)
        else none := by
  induction path with
  | nil =>
    intro pre _ hsub
    simp only [List.nil_append]
    unfold findSplit
    rw [findSplit_none_of_no_colon sub (pre ++ [':']) hsub]
    simp
  | cons c p ih =>
    intro pre hpath hsub
    have hc : c ≠ ':' := fun h => hpath (h ▸ List.mem_cons_self c p)
    have hp : ':' ∉ p := fun h => hpath (List.mem_cons_of_mem c h)
    show findSplit pre (c :: (p ++ ':' :: sub)) = _
    unfold findSplit
    rw [ih (pre ++ [c]) hp hsub]
    by_cases hcand : isCandidate (pre ++ [c] ++ p) sub = true
    · rw [if_pos hcand]
      have hcand2 : isCandidate (pre ++ c :: p) sub = true := by
        simpa [List.append_assoc] using hcand
      simp [hcand2, List.append_assoc]
    · rw [if_neg hcand]
      have hcand2 : ¬ isCandidate (pre ++ c :: p) sub = true := by
        intro hx
        exact hcand (by simpa [List.append_assoc] using hx)
      simp [hcand2, hc]

/-- isSchemeColon is false on the empty prefix. -/
theorem isSchemeColon_nil : isSchemeColon [] = false := by decide

/-- If a scheme token directly precedes a colon, the resolver never chooses
that colon as the split point: the returned locator is never exactly the text
before the scheme colon. -/
theorem resolve_scheme_colon_kept (p rest loc sub : List Char)
    (h1 : p.head? ≠ some dquote) (h2 : p.head? ≠ some squote)
    (hs : isSchemeColon p = true)
    (hres : resolve (p ++ ':' :: rest) = .ok (loc, sub)) :
    loc ≠ p := by
  match p, h1, h2 with
  | [], _, _ => exact absurd hs (by simp [isSchemeColon_nil])
  | q :: t, h1, h2 =>
    have hql : q ≠ dquote := fun h => h1 (by simp [h])
    have hqs : q ≠ squote := fun h => h2 (by simp [h])
    have hform : (q :: t) ++ ':' :: rest = q :: (t ++ ':' :: rest) := by simp
    rw [hform] at hres
    simp only [resolve] at hres
    rw [if_neg (by simp [hql, hqs])] at hres
    rw [show q :: (t ++ ':' :: rest) = (q :: t) ++ ':' :: rest from by simp]
      at hres
    split at hres
    · next l s2 heq =>
      by_cases hemp : l.isEmpty
      · rw [if_pos hemp] at hres
        exact absurd hres (by simp)
      · rw [if_neg hemp] at hres
        cases hres
        intro hloc
        subst hloc
        obtain ⟨l2, heq2, hl2, hcand⟩ := findSplit_some _ [] _ _ heq
        rw [List.nil_append] at hl2
        subst hl2
        simp [isCandidate, hs] at hcand
    · next heq =>
      by_cases hso : isSchemeOnly ((q :: t) ++ ':' :: rest) = true
      · rw [if_pos hso] at hres
        exact absurd hres (by simp)
      · rw [if_neg hso] at hres
        cases hres
        intro hloc
        have hlen := congrArg List.length hloc
        simp at hlen

/-- A local path (slash-initial, colon-free, not ending in a scheme token)
followed by a colon and a colon-free subpath is split exactly at that
colon. -/
theorem resolve_local_path_split (path sub : List Char)
    (hhead : path.head? = some '/')
    (hpc : ':' ∉ path) (hsc : ':' ∉ sub)
    (hsch : isSchemeColon path = false) :
    resolve (path ++ ':' :: sub) = .ok (path, sub) := by
  match path, hhead, hpc, hsch with
  | c :: t, hhead, hpc, hsch =>
    have hc : c = '/' := by simpa using hhead
    subst hc
    have hdrive : isDriveColon ('/' :: t) sub = false := by
      cases t with
      | nil =>
        simp [isDriveColon, show Char.isAlpha '/' = false from by decide]
      | cons x xs => rfl
    have hcand : isCandidate ('/' :: t) sub = true := by
      simp [isCandidate, hsch, hdrive]
    have hform : ('/' :: t) ++ ':' :: sub = '/' :: (t ++ ':' :: sub) := by
      simp
    rw [hform]
    simp only [resolve]
    rw [if_neg (by decide)]
    rw [show '/' :: (t ++ ':' :: sub) = ('/' :: t) ++ ':' :: sub from by simp]
    rw [findSplit_append ('/' :: t) sub [] hpc hsc]
    rw [List.nil_append, if_pos hcand]
    simp

/-- takeWhile not-quote passes over a quote-free list. -/
theorem takeWhile_no_quote (lc : List Char) (q : Char) (r : List Char)
    (h : q ∉ lc) :
    (lc ++ q :: r).takeWhile (fun c => !(c == q)) = lc := by
  induction lc with
  | nil => simp
  | cons c t ih =>
    have hc : c ≠ q := fun hx => h (hx ▸ List.mem_cons_self c t)
    have ht : q ∉ t := fun hx => h (List.mem_cons_of_mem c hx)
    simp [List.takeWhile_cons, hc, ih ht]

/-- dropWhile not-quote stops exactly at the closing quote. -/
theorem dropWhile_no_quote (lc : List Char) (q : Char) (r : List Char)
    (h : q ∉ lc) :
    (lc ++ q :: r).dropWhile (fun c => !(c == q)) = q :: r := by
  induction lc with
  | nil => simp
  | cons c t ih =>
    have hc : c ≠ q := fun hx => h (hx ▸ List.mem_cons_self c t)
    have ht : q ∉ t := fun hx => h (List.mem_cons_of_mem c hx)
    simp [List.dropWhile_cons, hc, ih ht]

/-- A quoted locator followed by a colon and a subpath resolves to exactly
that locator and subpath; colons inside the quotes are never split points. -/
theorem resolve_quoted_path_split (lc sub : List Char) (hq : dquote ∉ lc) :
    resolve (dquote :: (lc ++ dquote :: ':' :: sub)) = .ok (lc, sub) := by
  simp only [resolve]
  rw [if_pos (by simp)]
  simp only [resolveQuoted]
  rw [takeWhile_no_quote lc dquote (':' :: sub) hq,
      dropWhile_no_quote lc dquote (':' :: sub) hq]
  simp

/-- A Windows drive-letter local path (letter, drive colon, slash, remainder)
followed by a colon and a colon-free subpath is split exactly at the
trailing subpath colon: the drive colon never hides the split. -/
theorem resolve_drive_path_split (d : Char) (tl sub : List Char)
    (hd : d.isAlpha = true) (htc : ':' ∉ tl) (hsc : ':' ∉ sub)
    (hsch : isSchemeColon (d :: ':' :: '/' :: tl) = false) :
    resolve ((d :: ':' :: '/' :: tl) ++ ':' :: sub)
      = .ok (d :: ':' :: '/' :: tl, sub) := by
  have hdq : d ≠ dquote := fun h => by
    rw [h] at hd
    exact absurd hd (by decide)
  have hds : d ≠ squote := fun h => by
    rw [h] at hd
    exact absurd hd (by decide)
  have hdrive : isDriveColon (d :: ':' :: '/' :: tl) sub = false := rfl
  have hcand : isCandidate (d :: ':' :: '/' :: tl) sub = true := by
    simp [isCandidate, hsch, hdrive]
  have hvtc : ':' ∉ '/' :: tl := by
    intro hx
    rcases List.mem_cons.mp hx with h | h
    · exact absurd h (by decide)
    · exact htc h
  have hinner : findSplit [d, ':'] ('/' :: (tl ++ ':' :: sub))
      = some (d :: ':' :: '/' :: tl, sub) := by
    have h := findSplit_append ('/' :: tl) sub [d, ':'] hvtc hsc
    simp only [List.cons_append, List.nil_append] at h
    rw [h, if_pos hcand]
  have h2 : findSplit [d] (':' :: '/' :: (tl ++ ':' :: sub))
      = some (d :: ':' :: '/' :: tl, sub) := by
    unfold findSplit
    simp only [List.cons_append, List.nil_append]
    rw [hinner]
  have h1 : findSplit [] (d :: ':' :: '/' :: (tl ++ ':' :: sub))
      = some (d :: ':' :: '/' :: tl, sub) := by
    unfold findSplit
    simp only [List.cons_append, List.nil_append]
    rw [h2]
  rw [show (d :: ':' :: '/' :: tl) ++ ':' :: sub
      = d :: ':' :: '/' :: (tl ++ ':' :: sub) from by simp]
  simp only [resolve]
  rw [if_neg (by simp [hdq, hds])]
  rw [h1]
  simp

/-- C3: for identifiers whose locator is a scheme URL (http, https, ftp, s3,
also behind a virtual-filesystem wrapper), the URI Resolver never splits at
the scheme colon: the locator it returns is never the text ending just
before that colon.  For identifiers of the form path colon subpath where the
path is a local path (slash-rooted, or rooted at a Windows drive letter) or
a quoted path, the resolver does split at that colon and returns exactly
the pair (path, subpath). -/
theorem c3_scheme_colon_and_subpath_split :
    (∀ p rest loc sub : List Char,
        p.head? ≠ some dquote → p.head? ≠ some squote →
        isSchemeColon p = true →
        resolve (p ++ ':' :: rest) = .ok (loc, sub) → loc ≠ p)
    ∧ (∀ path sub : List Char,
        path.head? = some '/' → ':' ∉ path → ':' ∉ sub →
        isSchemeColon path = false →
        resolve (path ++ ':' :: sub) = .ok (path, sub))
    ∧ (∀ (d : Char) (tl sub : List Char),
        d.isAlpha = true → ':' ∉ tl → ':' ∉ sub →
        isSchemeColon (d :: ':' :: '/' :: tl) = false →
        resolve ((d :: ':' :: '/' :: tl) ++ ':' :: sub)
          = .ok (d :: ':' :: '/' :: tl, sub))
    ∧ (∀ lc sub : List Char, dquote ∉ lc →
        resolve (dquote :: (lc ++ dquote :: ':' :: sub)) = .ok (lc, sub)) :=
  ⟨resolve_scheme_colon_kept, resolve_local_path_split,
    resolve_drive_path_split, resolve_quoted_path_split⟩

/-- Witness for C3 at concrete identifiers from the test suite. -/
theorem c3_scheme_colon_and_subpath_split_witness :
    "https://example.com/data.zarr".toList ≠ "https".toList
    ∧ resolve ("/local/path/data.zarr".toList ++ ':' :: "band1".toList) =
        .ok ("/local/path/data.zarr".toList, "band1".toList)
    ∧ resolve ("C:/data/test.zarr".toList ++ ':' :: "band1".toList) =
        .ok ("C:/data/test.zarr".toList, "band1".toList)
    ∧ resolve (dquote :: ("/quoted/path/data.zarr".toList ++
        dquote :: ':' :: "band1".toList)) =
        .ok ("/quoted/path/data.zarr".toList, "band1".toList) := by
  refine ⟨?_, ?_, ?_, ?_⟩
  · exact c3_scheme_colon_and_subpath_split.1 "https".toList
      "//example.com/data.zarr".toList "https://example.com/data.zarr".toList
      [] (by decide) (by decide) (by decide) rfl
  · exact c3_scheme_colon_and_subpath_split.2.1 "/local/path/data.zarr".toList
      "band1".toList (by decide) (by decide) (by decide) (by decide)
  · exact c3_scheme_colon_and_subpath_split.2.2.1 'C'
      "data/test.zarr".toList "band1".toList (by decide) (by decide)
      (by decide) (by decide)
  · exact c3_scheme_colon_and_subpath_split.2.2.2
      "/quoted/path/data.zarr".toList "band1".toList (by decide)

/-- Element data types of array nodes in the chunked store. -/
inductive DType where
  | int8
  | uint8
  | int16
  | uint16
  | int32
  | uint32
  | float32
  | float64
  | complex64
  | other
  deriving DecidableEq, Repr

/-- Modelled from the spec: the supported numeric dtype set of section 4.2
(8, 16 and 32 bit integer and float variants). -/
def supportedDType : DType → Bool
  | .int8 => true
  | .uint8 => true
  | .int16 => true
  | .uint16 => true
  | .int32 => true
  | .uint32 => true
  | .float32 => true
  | .float64 => true
  | _ => false

/-- Shape and dtype of an array node. -/
structure ArrayInfo where
  shape : List Nat
  dtype : DType
  deriving DecidableEq, Repr

/-- Modelled from the spec: a node is a candidate leaf only if it is an array
of rank at least 2 with a supported numeric dtype. -/
def arrayEligible (a : ArrayInfo) : Bool :=
  decide (2 ≤ a.shape.length) && supportedDType a.dtype

/-- A hierarchy node of the chunked store: an array leaf or a named group of
children.  Children are stored in traversal order (the walker visits them in
stable lexical order per the spec; the model takes them as already so
ordered). -/
inductive ZNode where
  | array : List Char → ArrayInfo → ZNode
  | group : List Char → List ZNode → ZNode

/-- Name of a hierarchy node. -/
def nodeName : ZNode → List Char
  | .array nm _ => nm
  | .group nm _ => nm

mutual

/-- Modelled from the spec: the missing Hierarchy Walker on one node:
depth-first enumeration of eligible leaf arrays, with root-relative paths as
segment lists. -/
def walkNode : ZNode → List (List (List Char) × ArrayInfo)
  | .array nm info => if arrayEligible info then [([nm], info)] else []
  | .group nm cs => (walkForest cs).map (fun pr => (nm :: pr.1, pr.2))

/-- Modelled from the spec: the missing Hierarchy Walker on a list of sibling
nodes, in order. -/
def walkForest : List ZNode → List (List (List Char) × ArrayInfo)
  | [] => []
  | n :: ns => walkNode n ++ walkForest ns

end

mutual

/-- Direct addressing of a node below a given node by remaining path
segments. -/
def lookupIn : ZNode → List (List Char) → Option ArrayInfo
  | .array _ info, rest => if rest.isEmpty then some info else none
  | .group _ cs, rest => lookupForest cs rest

/-- Direct addressing of a node among siblings by path segments. -/
def lookupForest : List ZNode → List (List Char) → Option ArrayInfo
  | _, [] => none
  | [], _ :: _ => none
  | n :: ns, s :: rest =>
    if nodeName n = s then lookupIn n rest else lookupForest ns (s :: rest)

end

/-- A well-formed node name: nonempty and slash-free. -/
def goodName (nm : List Char) : Bool :=
  !(nm.isEmpty) && nm.all (fun c => !(c == '/'))

mutual

/-- Well-formedness of a node: its name is good and its children are
well-formed. -/
def wfNode : ZNode → Bool
  | .array nm _ => goodName nm
  | .group nm cs => goodName nm && wfForest cs

/-- Well-formedness of siblings: each well-formed, names pairwise
distinct. -/
def wfForest : List ZNode → Bool
  | [] => true
  | n :: ns =>
    wfNode n && ns.all (fun m => !(decide (nodeName m = nodeName n))) &&
      wfForest ns

end

/-- Join path segments with slashes. -/
def joinSegs : List (List Char) → List Char
  | [] => []
  | [s] => s
  | s :: rest => s ++ '/' :: joinSegs rest

/-- Split a textual path at slashes. -/
def splitSlash : List Char → List (List Char)
  | [] => [[]]
  | c :: t =>
    if c = '/' then [] :: splitSlash t
    else
      match splitSlash t with
      | [] => [[c]]
      | h :: r => (c :: h) :: r

/-- splitSlash of a slash-free list is that single segment. -/
theorem splitSlash_no_slash (s : List Char) (h : '/' ∉ s) :
    splitSlash s = [s] := by
  induction s with
  | nil => rfl
  | cons c t ih =>
    have hc : c ≠ '/' := fun hx => h (hx ▸ List.mem_cons_self c t)
    have ht : '/' ∉ t := fun hx => h (List.mem_cons_of_mem c hx)
    unfold splitSlash
    rw [if_neg hc, ih ht]

/-- splitSlash recovers the first segment before a slash. -/
theorem splitSlash_append (s t : List Char) (h : '/' ∉ s) :
    splitSlash (s ++ '/' :: t) = s :: splitSlash t := by
  induction s with
  | nil =>
    simp only [List.nil_append]
    conv_lhs => unfold splitSlash
    rw [if_pos rfl]
  | cons c u ih =>
    have hc : c ≠ '/' := fun hx => h (hx ▸ List.mem_cons_self c u)
    have hu : '/' ∉ u := fun hx => h (List.mem_cons_of_mem c hx)
    show splitSlash (c :: (u ++ '/' :: t)) = (c :: u) :: splitSlash t
    conv_lhs => unfold splitSlash
    rw [if_neg hc, ih hu]

/-- splitSlash is a left inverse of joinSegs on nonempty lists of slash-free
segments. -/
theorem splitSlash_joinSegs (segs : List (List Char)) (hne : segs ≠ [])
    (hs : ∀ s ∈ segs, '/' ∉ s) :
    splitSlash (joinSegs segs) = segs := by
  induction segs with
  | nil => exact absurd rfl hne
  | cons s rest ih =>
    cases rest with
    | nil =>
      show splitSlash (joinSegs [s]) = [s]
      unfold joinSegs
      exact splitSlash_no_slash s (hs s (List.mem_cons_self s []))
    | cons s2 rest2 =>
      show splitSlash (joinSegs (s :: s2 :: rest2)) = s :: s2 :: rest2
      unfold joinSegs
      rw [splitSlash_append s _ (hs s (List.mem_cons_self s _))]
      rw [ih (by simp) (fun x hx => hs x (List.mem_cons_of_mem s hx))]

/-- Every emitted entry of walkNode starts with the name of that node. -/
theorem walkNode_head (n : ZNode) (segs : List (List Char)) (a : ArrayInfo)
    (hmem : (segs, a) ∈ walkNode n) :
    ∃ rest, segs = nodeName n :: rest := by
  cases n with
  | array nm info =>
    unfold walkNode at hmem
    by_cases he : arrayEligible info = true
    · rw [if_pos he] at hmem
      have h := List.mem_singleton.mp hmem
      have h1 : segs = [nm] := congrArg Prod.fst h
      exact ⟨[], by simpa [nodeName] using h1⟩
    · rw [if_neg he] at hmem
      exact absurd hmem (List.not_mem_nil _)
  | group nm cs =>
    unfold walkNode at hmem
    obtain ⟨pr, _, hpr⟩ := List.mem_map.mp hmem
    have h1 : nm :: pr.1 = segs := congrArg Prod.fst hpr
    exact ⟨pr.1, by simpa [nodeName] using h1.symm⟩

/-- Every entry of walkForest starts with the name of some sibling. -/
theorem walkForest_head (ns : List ZNode) (segs : List (List Char))
    (a : ArrayInfo) (hmem : (segs, a) ∈ walkForest ns) :
    ∃ m, m ∈ ns ∧ ∃ rest, segs = nodeName m :: rest := by
  induction ns with
  | nil => exact absurd hmem (List.not_mem_nil _)
  | cons n ns ih =>
    unfold walkForest at hmem
    rcases List.mem_append.mp hmem with hl | hr
    · obtain ⟨rest, hrest⟩ := walkNode_head n segs a hl
      exact ⟨n, List.mem_cons_self n ns, rest, hrest⟩
    · obtain ⟨m, hm, rest, hrest⟩ := ih hr
      exact ⟨m, List.mem_cons_of_mem n hm, rest, hrest⟩

mutual

/-- Walked entries of a well-formed node are found again by direct
addressing below that node. -/
theorem walkNode_lookupIn (n : ZNode) (segs : List (List Char))
    (a : ArrayInfo) (hwf : wfNode n = true)
    (hmem : (segs, a) ∈ walkNode n) :
    ∃ rest, segs = nodeName n :: rest ∧ lookupIn n rest = some a := by
  cases n with
  | array nm info =>
    unfold walkNode at hmem
    by_cases he : arrayEligible info = true
    · rw [if_pos he] at hmem
      have h := List.mem_singleton.mp hmem
      have h1 : segs = [nm] := congrArg Prod.fst h
      have h2 : a = info := congrArg Prod.snd h
      exact ⟨[], by simpa [nodeName] using h1, by simp [lookupIn, h2]⟩
    · rw [if_neg he] at hmem
      exact absurd hmem (List.not_mem_nil _)
  | group nm cs =>
    unfold walkNode at hmem
    obtain ⟨pr, hpr, heq⟩ := List.mem_map.mp hmem
    have h1 : nm :: pr.1 = segs := congrArg Prod.fst heq
    have h2 : pr.2 = a := congrArg Prod.snd heq
    have hwf2 : wfForest cs = true := by
      unfold wfNode at hwf
      exact (Bool.and_eq_true _ _ |>.mp hwf).2
    refine ⟨pr.1, by simpa [nodeName] using h1.symm, ?_⟩
    show lookupForest cs pr.1 = some a
    have hres := walkForest_lookup cs pr.1 pr.2 hwf2 (by simpa using hpr)
    rw [h2] at hres
    exact hres

/-- Walked entries of a well-formed forest are found again by direct
addressing among those siblings. -/
theorem walkForest_lookup (ns : List ZNode) (segs : List (List Char))
    (a : ArrayInfo) (hwf : wfForest ns = true)
    (hmem : (segs, a) ∈ walkForest ns) :
    lookupForest ns segs = some a := by
  cases ns with
  | nil => exact absurd hmem (List.not_mem_nil _)
  | cons n ns =>
    unfold wfForest at hwf
    rw [Bool.and_eq_true, Bool.and_eq_true] at hwf
    obtain ⟨⟨hwn, hdist⟩, hwns⟩ := hwf
    unfold walkForest at hmem
    rcases List.mem_append.mp hmem with hl | hr
    · obtain ⟨rest, hrest, hlook⟩ := walkNode_lookupIn n segs a hwn hl
      rw [hrest]
      unfold lookupForest
      rw [if_pos rfl]
      exact hlook
    · obtain ⟨m, hm, rest, hrest⟩ := walkForest_head ns segs a hr
      have hd := List.all_eq_true.mp hdist m hm
      simp only [Bool.not_eq_true', decide_eq_false_iff_not] at hd
      have hne : nodeName n ≠ nodeName m := fun hx => hd hx.symm
      rw [hrest]
      unfold lookupForest
      rw [if_neg hne]
      rw [← hrest]
      exact walkForest_lookup ns segs a hwns hr

end

mutual

/-- Path segments emitted by the walk of a well-formed node are
slash-free. -/
theorem walkNode_segs_slashfree (n : ZNode) (segs : List (List Char))
    (a : ArrayInfo) (hwf : wfNode n = true)
    (hmem : (segs, a) ∈ walkNode n) :
    ∀ s ∈ segs, '/' ∉ s := by
  cases n with
  | array nm info =>
    unfold walkNode at hmem
    by_cases he : arrayEligible info = true
    · rw [if_pos he] at hmem
      have h1 : segs = [nm] := congrArg Prod.fst (List.mem_singleton.mp hmem)
      subst h1
      intro s hs
      have hsnm : s = nm := List.mem_singleton.mp hs
      subst hsnm
      intro hx
      unfold wfNode at hwf
      unfold goodName at hwf
      rw [Bool.and_eq_true] at hwf
      have := List.all_eq_true.mp hwf.2 '/' hx
      simp at this
    · rw [if_neg he] at hmem
      exact absurd hmem (List.not_mem_nil _)
  | group nm cs =>
    unfold walkNode at hmem
    obtain ⟨pr, hpr, heq⟩ := List.mem_map.mp hmem
    have h1 : nm :: pr.1 = segs := congrArg Prod.fst heq
    unfold wfNode at hwf
    rw [Bool.and_eq_true] at hwf
    intro s hs
    rw [← h1] at hs
    rcases List.mem_cons.mp hs with hsn | hsr
    · subst hsn
      intro hx
      unfold goodName at hwf
      rw [Bool.and_eq_true] at hwf
      have := List.all_eq_true.mp hwf.1.2 '/' hx
      simp at this
    · exact walkForest_segs_slashfree cs pr.1 pr.2 hwf.2
        (by simpa using hpr) s hsr

/-- Path segments emitted by the walk of a well-formed forest are
slash-free. -/
theorem walkForest_segs_slashfree (ns : List ZNode)
    (segs : List (List Char)) (a : ArrayInfo) (hwf : wfForest ns = true)
    (hmem : (segs, a) ∈ walkForest ns) :
    ∀ s ∈ segs, '/' ∉ s := by
  cases ns with
  | nil => exact absurd hmem (List.not_mem_nil _)
  | cons n ns =>
    unfold wfForest at hwf
    rw [Bool.and_eq_true, Bool.and_eq_true] at hwf
    unfold walkForest at hmem
    rcases List.mem_append.mp hmem with hl | hr
    · exact walkNode_segs_slashfree n segs a hwf.1.1 hl
    · exact walkForest_segs_slashfree ns segs a hwf.2 hr

end

/-- A Subdataset Catalog entry: full identifier name, segment path, array
info. -/
structure SubEntry where
  name : List Char
  segs : List (List Char)
  info : ArrayInfo
  deriving DecidableEq

/-- Modelled from the spec: subdataset name construction of the missing
Subdataset Catalog, the quoted container locator plus a colon plus the
root-relative slash-joined node path. -/
def mkSubName (loc : List Char) (segs : List (List Char)) : List Char :=
  dquote :: (loc ++ dquote :: ':' :: joinSegs segs)

/-- Modelled from the spec: the missing Subdataset Catalog, listing the walked
eligible leaves in walk order with reconstructible names. -/
def catalog (loc : List Char) (tree : List ZNode) : List SubEntry :=
  (walkForest tree).map (fun pr => ⟨mkSubName loc pr.1, pr.1, pr.2⟩)

/-- Modelled from the spec: the full identifier-resolution open pipeline on a
store: resolve the identifier, then address the node named by the internal
subpath directly. -/
def openNodeByIdent (tree : List ZNode) (ident : List Char) :
    Option ArrayInfo :=
  match resolve ident with
  | .error _ => none
  | .ok (_, sub) => lookupForest tree (splitSlash sub)

/-- C4: for every Subdataset Catalog entry, resolving its name through the
URI Resolver yields exactly the container locator and internal subpath used
to construct it, and opening that name through the full pipeline addresses
exactly the walked node. -/
theorem c4_catalog_roundtrip (loc : List Char) (tree : List ZNode)
    (e : SubEntry) (hq : dquote ∉ loc) (hwf : wfForest tree = true)
    (hmem : e ∈ catalog loc tree) :
    resolve e.name = .ok (loc, joinSegs e.segs)
    ∧ openNodeByIdent tree e.name = some e.info := by
  obtain ⟨pr, hpr, heq⟩ := List.mem_map.mp hmem
  have hname : e.name = mkSubName loc pr.1 := by rw [← heq]
  have hsegs : e.segs = pr.1 := by rw [← heq]
  have hinfo : e.info = pr.2 := by rw [← heq]
  have hres : resolve e.name = .ok (loc, joinSegs e.segs) := by
    rw [hname, hsegs]
    exact resolve_quoted_path_split loc (joinSegs pr.1) hq
  refine ⟨hres, ?_⟩
  unfold openNodeByIdent
  rw [hres]
  have hne : pr.1 ≠ [] := by
    obtain ⟨m, _, rest, hrest⟩ :=
      walkForest_head tree pr.1 pr.2 (by simpa using hpr)
    simp [hrest]
  have hsf : ∀ s ∈ pr.1, '/' ∉ s :=
    walkForest_segs_slashfree tree pr.1 pr.2 hwf (by simpa using hpr)
  rw [hsegs]
  show lookupForest tree (splitSlash (joinSegs pr.1)) = some e.info
  rw [splitSlash_joinSegs pr.1 hne hsf, hinfo]
  exact walkForest_lookup tree pr.1 pr.2 hwf (by simpa using hpr)

/-- Concrete store for the C4 witness: one group with one eligible leaf. -/
def witnessTree : List ZNode :=
  [.group "measurements".toList
    [.array "b02".toList ⟨[10980, 10980], .uint16⟩]]

/-- Witness for C4 at a concrete catalog entry of the concrete store. -/
theorem c4_catalog_roundtrip_witness :
    resolve (SubEntry.name ⟨mkSubName "/data/test.zarr".toList
        ["measurements".toList, "b02".toList],
      ["measurements".toList, "b02".toList], ⟨[10980, 10980], .uint16⟩⟩) =
      .ok ("/data/test.zarr".toList,
        joinSegs ["measurements".toList, "b02".toList])
    ∧ openNodeByIdent witnessTree
        (SubEntry.name ⟨mkSubName "/data/test.zarr".toList
            ["measurements".toList, "b02".toList],
          ["measurements".toList, "b02".toList],
          ⟨[10980, 10980], .uint16⟩⟩) =
        some ⟨[10980, 10980], .uint16⟩ := by
  exact c4_catalog_roundtrip "/data/test.zarr".toList witnessTree
    ⟨mkSubName "/data/test.zarr".toList
        ["measurements".toList, "b02".toList],
      ["measurements".toList, "b02".toList], ⟨[10980, 10980], .uint16⟩⟩
    (by decide) (by decide) (by decide)

/-- Affine geotransform: origin-x, pixel-width, row-rotation, origin-y,
column-rotation, pixel-height. -/
structure GeoTransform where
  originX : ℚ
  pixelW : ℚ
  rotX : ℚ
  originY : ℚ
  rotY : ℚ
  pixelH : ℚ
  deriving DecidableEq, Repr

/-- The default identity transform, which per the spec must never stand in
for an absent geotransform. -/
def identityGT : GeoTransform := ⟨0, 1, 0, 0, 0, 1⟩

/-- Coordinate reference system: authority-coded geographic or projected. -/
inductive CRS where
  | geographic : Nat → CRS
  | projected : Nat → CRS
  deriving DecidableEq, Repr

/-- Whether an optional CRS is a projected one. -/
def isProjectedOpt : Option CRS → Bool
  | some (.projected _) => true
  | _ => false

/-- Kind of a Geolocation Reference. -/
inductive GeolocKind where
  | dense
  | gcp
  deriving DecidableEq, Repr

/-- Raw projected bounding box as read from source metadata, with the
product-family flag for the known non-standard element order east, south,
west, north. -/
structure RawBBox where
  b0 : ℚ
  b1 : ℚ
  b2 : ℚ
  b3 : ℚ
  nonStandardOrder : Bool
  deriving DecidableEq, Repr

/-- Normalized bounding box in west, south, east, north order. -/
structure NormBBox where
  west : ℚ
  south : ℚ
  east : ℚ
  north : ℚ
  deriving DecidableEq, Repr

/-- Modelled from the spec: bbox axis-order normalization of the missing
Geospatial Calibrator (rule 1): the non-standard east, south, west, north
element order is corrected to west, south, east, north before use. -/
def normalizeBBox (r : RawBBox) : NormBBox :=
  if r.nonStandardOrder then ⟨r.b2, r.b1, r.b0, r.b3⟩
  else ⟨r.b0, r.b1, r.b2, r.b3⟩

/-- Geographic bounding box in lon/lat, west, south, east, north. -/
structure GeoBBox where
  west : ℚ
  south : ℚ
  east : ℚ
  north : ℚ
  deriving DecidableEq, Repr

/-- Projected extent: componentwise extremes. -/
structure Extent where
  xmin : ℚ
  xmax : ℚ
  ymin : ℚ
  ymax : ℚ
  deriving DecidableEq, Repr

/-- Modelled from the spec: the projected extent of a geographic bbox under
the external coordinate transformation (rule 2): transform the four corners
and take componentwise extremes, never treating degrees as meters. -/
def utmExtent (T : ℚ × ℚ → ℚ × ℚ) (gb : GeoBBox) : Extent :=
  let c1 := T (gb.west, gb.south)
  let c2 := T (gb.west, gb.north)
  let c3 := T (gb.east, gb.south)
  let c4 := T (gb.east, gb.north)
  ⟨min (min c1.1 c2.1) (min c3.1 c4.1),
   max (max c1.1 c2.1) (max c3.1 c4.1),
   min (min c1.2 c2.2) (min c3.2 c4.2),
   max (max c1.2 c2.2) (max c3.2 c4.2)⟩

/-- Modelled from the spec: geotransform from the first two samples of the
sibling coordinate vectors (rule 3): pixel size is second minus first sample
along each axis; origin is first sample minus half a pixel, the shift from
center registration to corner registration. -/
def gtFromCoords (cx cy : ℚ × ℚ) : GeoTransform :=
  ⟨cx.1 - (cx.2 - cx.1) / 2, cx.2 - cx.1, 0,
   cy.1 - (cy.2 - cy.1) / 2, 0, cy.2 - cy.1⟩

/-- Input of the Geospatial Calibrator for one target node: optional
projected bbox, optional geographic bbox, target CRS, raster size, optional
first two samples of sibling coordinate vectors, dense geolocation pair and
sparse GCP grid availability. -/
structure CalibInput where
  projBBox : Option RawBBox
  geoBBox : Option GeoBBox
  crs : Option CRS
  width : Nat
  height : Nat
  coordX : Option (ℚ × ℚ)
  coordY : Option (ℚ × ℚ)
  geolocDense : Bool
  gcpGrid : Bool

/-- Result of the Geospatial Calibrator. -/
structure CalibResult where
  srs : Option CRS
  gt : Option GeoTransform
  geoloc : Option GeolocKind
  meta : List (List Char × ℚ)

/-- Modelled from the spec: the missing Geospatial Calibrator, the ordered
rule chain of section 4.4: rule 1 projected bbox (normalized order), rule 2
geographic bbox with projected target CRS via the external coordinate
transformation (also recording the transformed minimum easting as the
utm_easting_min metadata item checked by the tests), rule 3 sibling
coordinate vectors, rule 4 dense geolocation arrays, rule 5 sparse GCP grid;
otherwise all spatial fields absent.  The calibrator is a total function:
absence is propagated as none, never as a default transform, and no failure
is raised for missing spatial metadata. -/
def calibrate (T : ℚ × ℚ → ℚ × ℚ) (inp : CalibInput) : CalibResult :=
  match inp.projBBox with
  | some rb =>
    let nb := normalizeBBox rb
    ⟨inp.crs,
     some ⟨nb.west, (nb.east - nb.west) / (inp.width : ℚ), 0,
       nb.north, 0, -((nb.north - nb.south) / (inp.height : ℚ))⟩,
     none, []⟩
  | none =>
    match inp.geoBBox, isProjectedOpt inp.crs with
    | some gb, true =>
      let ex := utmExtent T gb
      ⟨inp.crs,
       some ⟨ex.xmin, (ex.xmax - ex.xmin) / (inp.width : ℚ), 0,
         ex.ymax, 0, -((ex.ymax - ex.ymin) / (inp.height : ℚ))⟩,
       none, [("utm_easting_min".toList, ex.xmin)]⟩
    | _, _ =>
      match inp.coordX, inp.coordY with
      | some cx, some cy =>
        ⟨inp.crs, some (gtFromCoords cx cy), none, []⟩
      | _, _ =>
        if inp.geolocDense then ⟨inp.crs, none, some .dense, []⟩
        else if inp.gcpGrid then ⟨inp.crs, none, some .gcp, []⟩
        else ⟨inp.crs, none, none, []⟩

/-- Find a metadata value by key. -/
def metaFindQ (m : List (List Char × ℚ)) (k : List Char) : Option ℚ :=
  match m with
  | [] => none
  | (k2, v) :: t => if k2 = k then some v else metaFindQ t k

/-- Rule 3 branch of the calibrator: with no projected and no geographic
bbox, sibling coordinate vectors fully determine the geotransform. -/
theorem calibrate_coords_gt (T : ℚ × ℚ → ℚ × ℚ) (crs : Option CRS)
    (w h : Nat) (cx cy : ℚ × ℚ) (gd gg : Bool) :
    (calibrate T ⟨none, none, crs, w, h, some cx, some cy, gd, gg⟩).gt
      = some (gtFromCoords cx cy) := rfl

/-- C5: for a leaf with sibling 1-D coordinate vectors at its own resolution
(and no bbox rules applying), the calibrator derives the geotransform from
the first two samples of each vector: pixel size is second minus first
sample, origin is first sample minus half the pixel size; the result depends
only on that resolution's own coordinate vectors. -/
theorem c5_coord_vector_geotransform (T : ℚ × ℚ → ℚ × ℚ)
    (crs : Option CRS) (w h : Nat) (cx cy : ℚ × ℚ) (gd gg : Bool) :
    (calibrate T ⟨none, none, crs, w, h, some cx, some cy, gd, gg⟩).gt
      = some ⟨cx.1 - (cx.2 - cx.1) / 2, cx.2 - cx.1, 0,
          cy.1 - (cy.2 - cy.1) / 2, 0, cy.2 - cy.1⟩ :=
  calibrate_coords_gt T crs w h cx cy gd gg

/-- C6: two resolution tiles sharing a nominal tile origin, each calibrated
independently from its own pixel-center coordinate vectors, derive the same
upper-left origin, in particular agreeing within 1 unit in x and y. -/
theorem c6_cross_resolution_origin_agreement (T : ℚ × ℚ → ℚ × ℚ)
    (crs : Option CRS) (w1 h1 w2 h2 : Nat) (ox oy r1 r2 : ℚ)
    (gd gg : Bool) :
    ∃ g1 g2,
      (calibrate T ⟨none, none, crs, w1, h1,
          some (ox + r1 / 2, ox + 3 * r1 / 2),
          some (oy - r1 / 2, oy - 3 * r1 / 2), gd, gg⟩).gt = some g1
      ∧ (calibrate T ⟨none, none, crs, w2, h2,
          some (ox + r2 / 2, ox + 3 * r2 / 2),
          some (oy - r2 / 2, oy - 3 * r2 / 2), gd, gg⟩).gt = some g2
      ∧ g1.originX = g2.originX ∧ g1.originY = g2.originY
      ∧ abs (g1.originX - g2.originX) < 1
      ∧ abs (g1.originY - g2.originY) < 1 := by
  refine ⟨gtFromCoords (ox + r1 / 2, ox + 3 * r1 / 2)
      (oy - r1 / 2, oy - 3 * r1 / 2),
    gtFromCoords (ox + r2 / 2, ox + 3 * r2 / 2)
      (oy - r2 / 2, oy - 3 * r2 / 2),
    calibrate_coords_gt T crs w1 h1 _ _ gd gg,
    calibrate_coords_gt T crs w2 h2 _ _ gd gg, ?_, ?_, ?_, ?_⟩
  · show (ox + r1 / 2) - ((ox + 3 * r1 / 2) - (ox + r1 / 2)) / 2
      = (ox + r2 / 2) - ((ox + 3 * r2 / 2) - (ox + r2 / 2)) / 2
    ring
  · show (oy - r1 / 2) - ((oy - 3 * r1 / 2) - (oy - r1 / 2)) / 2
      = (oy - r2 / 2) - ((oy - 3 * r2 / 2) - (oy - r2 / 2)) / 2
    ring
  · show abs ((ox + r1 / 2) - ((ox + 3 * r1 / 2) - (ox + r1 / 2)) / 2
      - ((ox + r2 / 2) - ((ox + 3 * r2 / 2) - (ox + r2 / 2)) / 2)) < 1
    have hz : (ox + r1 / 2) - ((ox + 3 * r1 / 2) - (ox + r1 / 2)) / 2
      - ((ox + r2 / 2) - ((ox + 3 * r2 / 2) - (ox + r2 / 2)) / 2) = 0 := by
      ring
    rw [hz, abs_zero]
    norm_num
  · show abs ((oy - r1 / 2) - ((oy - 3 * r1 / 2) - (oy - r1 / 2)) / 2
      - ((oy - r2 / 2) - ((oy - 3 * r2 / 2) - (oy - r2 / 2)) / 2)) < 1
    have hz : (oy - r1 / 2) - ((oy - 3 * r1 / 2) - (oy - r1 / 2)) / 2
      - ((oy - r2 / 2) - ((oy - 3 * r2 / 2) - (oy - r2 / 2)) / 2) = 0 := by
      ring
    rw [hz, abs_zero]
    norm_num

/-- C2: for a source bbox in the non-standard element order east, south,
west, north, calibration normalizes the axis order before use, so the
derived geotransform places the upper-left corner west and north of the
lower-right corner. -/
theorem c2_bbox_order_normalized (T : ℚ × ℚ → ℚ × ℚ) (e s w n : ℚ)
    (gb : Option GeoBBox) (crs : Option CRS) (wd ht : Nat)
    (cx cy : Option (ℚ × ℚ)) (gd gg : Bool)
    (hwe : w < e) (hsn : s < n) (hwd : 0 < wd) (hht : 0 < ht) :
    ∃ g, (calibrate T
        ⟨some ⟨e, s, w, n, true⟩, gb, crs, wd, ht, cx, cy, gd, gg⟩).gt
      = some g
      ∧ g.originX < g.originX + (wd : ℚ) * g.pixelW + (ht : ℚ) * g.rotX
      ∧ g.originY + (wd : ℚ) * g.rotY + (ht : ℚ) * g.pixelH < g.originY := by
  have hwd0 : (wd : ℚ) ≠ 0 := Nat.cast_ne_zero.mpr hwd.ne'
  have hht0 : (ht : ℚ) ≠ 0 := Nat.cast_ne_zero.mpr hht.ne'
  refine ⟨⟨w, (e - w) / (wd : ℚ), 0, n, 0, -((n - s) / (ht : ℚ))⟩, rfl,
    ?_, ?_⟩
  · have hc : (wd : ℚ) * ((e - w) / (wd : ℚ)) = e - w := by
      field_simp
    show w < w + (wd : ℚ) * ((e - w) / (wd : ℚ)) + (ht : ℚ) * 0
    rw [hc]
    linarith
  · have hc : (ht : ℚ) * ((n - s) / (ht : ℚ)) = n - s := by
      field_simp
    show n + (wd : ℚ) * 0 + (ht : ℚ) * -((n - s) / (ht : ℚ)) < n
    have hc2 : (ht : ℚ) * -((n - s) / (ht : ℚ)) = -(n - s) := by
      rw [mul_neg, hc]
    rw [hc2]
    linarith

/-- Witness for C2 at a concrete non-standard bbox. -/
theorem c2_bbox_order_normalized_witness :
    ∃ g, (calibrate (fun p => p)
        ⟨some ⟨10, 20, 5, 30, true⟩, none, none, 100, 100,
          none, none, false, false⟩).gt = some g
      ∧ g.originX < g.originX + (100 : ℚ) * g.pixelW + (100 : ℚ) * g.rotX
      ∧ g.originY + (100 : ℚ) * g.rotY + (100 : ℚ) * g.pixelH < g.originY := by
  have h := c2_bbox_order_normalized (fun p => p) 10 20 5 30 none none
    100 100 none none false false (by decide) (by decide)
    (by decide) (by decide)
  simpa using h

/-- C1: UTM-fallback calibration (no projected bbox, geographic bbox with a
projected target CRS) derives the geotransform from the transformed extent;
when the transformed corner eastings lie in the plausible UTM band, the
origin easting stays below 10,000,000, pixel width is positive, pixel height
is negative, and the origin is never the pixel-space fallback (0,0). -/
theorem c1_utm_fallback_origin_plausible (T : ℚ × ℚ → ℚ × ℚ) (gb : GeoBBox)
    (z wd ht : Nat) (cx cy : Option (ℚ × ℚ)) (gd gg : Bool)
    (hwd : 0 < wd) (hht : 0 < ht)
    (hlo : 166000 ≤ (utmExtent T gb).xmin)
    (hhi : (utmExtent T gb).xmax ≤ 834000)
    (hx : (utmExtent T gb).xmin < (utmExtent T gb).xmax)
    (hy : (utmExtent T gb).ymin < (utmExtent T gb).ymax) :
    ∃ g, (calibrate T
        ⟨none, some gb, some (.projected z), wd, ht, cx, cy, gd, gg⟩).gt
      = some g
      ∧ g.originX < 10000000 ∧ 0 < g.pixelW ∧ g.pixelH < 0
      ∧ ¬(g.originX = 0 ∧ g.originY = 0) := by
  have hwd0 : (0 : ℚ) < (wd : ℚ) := by exact_mod_cast hwd
  have hht0 : (0 : ℚ) < (ht : ℚ) := by exact_mod_cast hht
  refine ⟨⟨(utmExtent T gb).xmin,
      ((utmExtent T gb).xmax - (utmExtent T gb).xmin) / (wd : ℚ), 0,
      (utmExtent T gb).ymax, 0,
      -(((utmExtent T gb).ymax - (utmExtent T gb).ymin) / (ht : ℚ))⟩,
    rfl, ?_, ?_, ?_, ?_⟩
  · show (utmExtent T gb).xmin < 10000000
    linarith
  · exact div_pos (by linarith) hwd0
  · have : (0 : ℚ) <
        ((utmExtent T gb).ymax - (utmExtent T gb).ymin) / (ht : ℚ) :=
      div_pos (by linarith) hht0
    linarith
  · rintro ⟨h0, _⟩
    have h0q : (utmExtent T gb).xmin = 0 := h0
    rw [h0q] at hlo
    norm_num at hlo

/-- Concrete corner transform for the UTM witnesses: piecewise constant so
that every value is a literal. -/
def utmWitnessT : ℚ × ℚ → ℚ × ℚ := fun p =>
  ((if p.1 < 21 then (200020 : ℚ) else 200021),
   (if p.2 < 37 then (4000036 : ℚ) else 4000037))

/-- Witness for C1 at a concrete geographic bbox and transform. -/
theorem c1_utm_fallback_origin_plausible_witness :
    ∃ g, (calibrate utmWitnessT
        ⟨none, some ⟨20, 36, 21, 37⟩, some (.projected 32634), 100, 100,
          none, none, false, false⟩).gt = some g
      ∧ g.originX < 10000000 ∧ 0 < g.pixelW ∧ g.pixelH < 0
      ∧ ¬(g.originX = 0 ∧ g.originY = 0) :=
  c1_utm_fallback_origin_plausible utmWitnessT ⟨20, 36, 21, 37⟩ 32634
    100 100 none none false false (by decide) (by decide)
    (by decide) (by decide) (by decide) (by decide)

/-- C10: for a UTM product whose root geotransform comes from the
coordinate-transformed geographic bbox, the open also records a
default-domain metadata item utm_easting_min holding the transformed
minimum easting, whose value stays below 10,000,000. -/
theorem c10_utm_easting_min_metadata (T : ℚ × ℚ → ℚ × ℚ) (gb : GeoBBox)
    (z wd ht : Nat) (cx cy : Option (ℚ × ℚ)) (gd gg : Bool)
    (hlo : 166000 ≤ (utmExtent T gb).xmin)
    (hhi : (utmExtent T gb).xmax ≤ 834000)
    (hx : (utmExtent T gb).xmin < (utmExtent T gb).xmax) :
    metaFindQ (calibrate T
        ⟨none, some gb, some (.projected z), wd, ht, cx, cy, gd, gg⟩).meta
        "utm_easting_min".toList
      = some ((utmExtent T gb).xmin)
      ∧ (utmExtent T gb).xmin < 10000000 := by
  constructor
  · show metaFindQ [("utm_easting_min".toList, (utmExtent T gb).xmin)]
      "utm_easting_min".toList = some ((utmExtent T gb).xmin)
    unfold metaFindQ
    rw [if_pos rfl]
  · linarith

/-- Witness for C10 at a concrete geographic bbox and transform. -/
theorem c10_utm_easting_min_metadata_witness :
    metaFindQ (calibrate utmWitnessT
        ⟨none, some ⟨20, 36, 21, 37⟩, some (.projected 32634), 50, 50,
          none, none, false, false⟩).meta "utm_easting_min".toList
      = some ((utmExtent utmWitnessT ⟨20, 36, 21, 37⟩).xmin)
      ∧ (utmExtent utmWitnessT ⟨20, 36, 21, 37⟩).xmin < 10000000 :=
  c10_utm_easting_min_metadata utmWitnessT ⟨20, 36, 21, 37⟩ 32634 50 50
    none none false false (by decide) (by decide) (by decide)

/-- C9: when no geotransform can be derived (no projected bbox, no usable
geographic bbox for a projected CRS, incomplete coordinate vectors), the
calibrator still returns a result: the spatial reference is passed through
and the geotransform is reported absent, never as the default identity
transform. -/
theorem c9_absent_geotransform_not_identity (T : ℚ × ℚ → ℚ × ℚ)
    (inp : CalibInput) (h1 : inp.projBBox = none)
    (h2 : inp.geoBBox = none ∨ isProjectedOpt inp.crs = false)
    (h3 : inp.coordX = none ∨ inp.coordY = none) :
    (calibrate T inp).gt = none
    ∧ (calibrate T inp).gt ≠ some identityGT
    ∧ (calibrate T inp).srs = inp.crs := by
  obtain ⟨pb, gb, crs, wd, ht, cx, cy, gd, gg⟩ := inp
  simp only at h1 h2 h3
  subst h1
  rcases h2 with h2 | h2
  · subst h2
    rcases h3 with h3 | h3
    · subst h3
      cases gd <;> cases gg <;> simp [calibrate, identityGT]
    · subst h3
      cases cx <;> cases gd <;> cases gg <;> simp [calibrate, identityGT]
  · rcases h3 with h3 | h3
    · subst h3
      cases gb <;> cases gd <;> cases gg <;>
        simp [calibrate, identityGT, h2]
    · subst h3
      cases gb <;> cases cx <;> cases gd <;> cases gg <;>
        simp [calibrate, identityGT, h2]

/-- Witness for C9 at a concrete target with no derivable geotransform. -/
theorem c9_absent_geotransform_not_identity_witness :
    (calibrate (fun p => p)
        ⟨none, none, some (.geographic 4326), 100, 100,
          none, none, false, false⟩).gt = none
    ∧ (calibrate (fun p => p)
        ⟨none, none, some (.geographic 4326), 100, 100,
          none, none, false, false⟩).gt ≠ some identityGT
    ∧ (calibrate (fun p => p)
        ⟨none, none, some (.geographic 4326), 100, 100,
          none, none, false, false⟩).srs = some (.geographic 4326) :=
  c9_absent_geotransform_not_identity (fun p => p)
    ⟨none, none, some (.geographic 4326), 100, 100, none, none,
      false, false⟩ rfl (Or.inl rfl) (Or.inl rfl)

/-- A polarization array of an areal radar (GRD) product. -/
structure PolArray where
  pol : List Char
  width : Nat
  height : Nat
  deriving DecidableEq, Repr

/-- Canonical polarization order for band composition. -/
def canonicalPols : List (List Char) :=
  ["VV".toList, "VH".toList, "HH".toList, "HV".toList]

/-- First array carrying the given polarization. -/
def findPol (arrs : List PolArray) (p : List Char) : Option PolArray :=
  arrs.find? (fun a => decide (a.pol = p))

/-- Modelled from the spec: selection of the same-resolution polarization
arrays of the missing Product Specializer, in canonical polarization
order. -/
def selectPols (arrs : List PolArray) : List PolArray :=
  canonicalPols.filterMap (findPol arrs)

/-- All selected arrays share identical dimensions. -/
def sameDims : List PolArray → Bool
  | [] => true
  | a :: t =>
    t.all (fun b => decide (b.width = a.width) && decide (b.height = a.height))

/-- Composed multi-band dataset with its metadata. -/
structure GRDDataset where
  bands : List PolArray
  meta : List (List Char × List Char)
  deriving DecidableEq, Repr

/-- Modelled from the spec: the GRD_MULTIBAND open option defaults to YES. -/
def defaultGRDMultiband : Bool := true

/-- Join character lists with commas. -/
def joinComma : List (List Char) → List Char
  | [] => []
  | [s] => s
  | s :: rest => s ++ ',' :: joinComma rest

/-- Find a string metadata value by key. -/
def metaFindS (m : List (List Char × List Char)) (k : List Char) :
    Option (List Char) :=
  match m with
  | [] => none
  | (k2, v) :: t => if k2 = k then some v else metaFindS t k

/-- Modelled from the spec: the missing multi-band composition of the
Product Specializer: when enabled, locate the same-resolution polarization
arrays, verify identical dimensions, present them as bands in canonical
polarization order, and attach metadata recording the enabled mode, the
product type and the polarization list; when disabled, no composition
occurs. -/
def composeGRD (multiband : Bool) (arrs : List PolArray) :
    Option GRDDataset :=
  if multiband then
    let sel := selectPols arrs
    if decide (2 ≤ sel.length) && sameDims sel then
      some ⟨sel,
        [("EOPF_MULTIBAND".toList, "YES".toList),
         ("EOPF_PRODUCT_TYPE".toList, "GRD".toList),
         ("EOPF_POLARIZATIONS".toList, joinComma (sel.map PolArray.pol))]⟩
    else none
  else none

/-- C7: opening a dual-polarization GRD product with the multi-band option
enabled (the default) yields a 2-band dataset whose band descriptions are
exactly VV,VH (or HH,HV) in canonical order, all bands sharing one width and
height, with metadata EOPF_MULTIBAND=YES recording the enabled mode. -/
theorem c7_grd_multiband_canonical (arrs : List PolArray) (w h : Nat)
    (p q : List Char)
    (hpq : (p = "VV".toList ∧ q = "VH".toList)
      ∨ (p = "HH".toList ∧ q = "HV".toList))
    (hp : findPol arrs p = some ⟨p, w, h⟩)
    (hq : findPol arrs q = some ⟨q, w, h⟩)
    (hother : ∀ r ∈ canonicalPols, r ≠ p → r ≠ q → findPol arrs r = none) :
    ∃ ds, composeGRD defaultGRDMultiband arrs = some ds
      ∧ ds.bands.map PolArray.pol = [p, q]
      ∧ (∀ b ∈ ds.bands, b.width = w ∧ b.height = h)
      ∧ metaFindS ds.meta "EOPF_MULTIBAND".toList = some "YES".toList
      ∧ metaFindS ds.meta "EOPF_PRODUCT_TYPE".toList
        = some "GRD".toList := by
  rcases hpq with ⟨hp1, hq1⟩ | ⟨hp1, hq1⟩
  · subst hp1
    subst hq1
    have hHH := hother "HH".toList (by decide) (by decide) (by decide)
    have hHV := hother "HV".toList (by decide) (by decide) (by decide)
    have hp2 : findPol arrs ['V', 'V'] = some ⟨['V', 'V'], w, h⟩ := hp
    have hq2 : findPol arrs ['V', 'H'] = some ⟨['V', 'H'], w, h⟩ := hq
    have hHH2 : findPol arrs ['H', 'H'] = none := hHH
    have hHV2 : findPol arrs ['H', 'V'] = none := hHV
    have hsel : selectPols arrs
        = [⟨"VV".toList, w, h⟩, ⟨"VH".toList, w, h⟩] := by
      simp [selectPols, canonicalPols, List.filterMap_cons,
        hp2, hq2, hHH2, hHV2]
    refine ⟨⟨[⟨"VV".toList, w, h⟩, ⟨"VH".toList, w, h⟩],
      [("EOPF_MULTIBAND".toList, "YES".toList),
       ("EOPF_PRODUCT_TYPE".toList, "GRD".toList),
       ("EOPF_POLARIZATIONS".toList, "VV,VH".toList)]⟩,
      ?_, rfl, ?_, rfl, rfl⟩
    · simp [composeGRD, defaultGRDMultiband, hsel, sameDims, joinComma]
    · intro b hb
      rcases List.mem_cons.mp hb with hb | hb
      · rw [hb]
        exact ⟨rfl, rfl⟩
      · rw [List.mem_singleton.mp hb]
        exact ⟨rfl, rfl⟩
  · subst hp1
    subst hq1
    have hVV := hother "VV".toList (by decide) (by decide) (by decide)
    have hVH := hother "VH".toList (by decide) (by decide) (by decide)
    have hp2 : findPol arrs ['H', 'H'] = some ⟨['H', 'H'], w, h⟩ := hp
    have hq2 : findPol arrs ['H', 'V'] = some ⟨['H', 'V'], w, h⟩ := hq
    have hVV2 : findPol arrs ['V', 'V'] = none := hVV
    have hVH2 : findPol arrs ['V', 'H'] = none := hVH
    have hsel : selectPols arrs
        = [⟨"HH".toList, w, h⟩, ⟨"HV".toList, w, h⟩] := by
      simp [selectPols, canonicalPols, List.filterMap_cons,
        hp2, hq2, hVV2, hVH2]
    refine ⟨⟨[⟨"HH".toList, w, h⟩, ⟨"HV".toList, w, h⟩],
      [("EOPF_MULTIBAND".toList, "YES".toList),
       ("EOPF_PRODUCT_TYPE".toList, "GRD".toList),
       ("EOPF_POLARIZATIONS".toList, "HH,HV".toList)]⟩,
      ?_, rfl, ?_, rfl, rfl⟩
    · simp [composeGRD, defaultGRDMultiband, hsel, sameDims, joinComma]
    · intro b hb
      rcases List.mem_cons.mp hb with hb | hb
      · rw [hb]
        exact ⟨rfl, rfl⟩
      · rw [List.mem_singleton.mp hb]
        exact ⟨rfl, rfl⟩

/-- Witness for C7: a VV/VH product listed in non-canonical order is
composed into canonical VV,VH band order. -/
theorem c7_grd_multiband_canonical_witness :
    ∃ ds, composeGRD defaultGRDMultiband
        [⟨"VH".toList, 100, 200⟩, ⟨"VV".toList, 100, 200⟩] = some ds
      ∧ ds.bands.map PolArray.pol = ["VV".toList, "VH".toList]
      ∧ (∀ b ∈ ds.bands, b.width = 100 ∧ b.height = 200)
      ∧ metaFindS ds.meta "EOPF_MULTIBAND".toList = some "YES".toList
      ∧ metaFindS ds.meta "EOPF_PRODUCT_TYPE".toList
        = some "GRD".toList :=
  c7_grd_multiband_canonical
    [⟨"VH".toList, 100, 200⟩, ⟨"VV".toList, 100, 200⟩] 100 200
    "VV".toList "VH".toList (Or.inl ⟨rfl, rfl⟩)
    (by decide) (by decide) (by decide)

/-- Uppercase a character list. -/
def toUpperL (s : List Char) : List Char := s.map Char.toUpper

/-- Split a character list at underscores. -/
def splitUnder : List Char → List (List Char)
  | [] => [[]]
  | c :: t =>
    if c = '_' then [] :: splitUnder t
    else
      match splitUnder t with
      | [] => [[c]]
      | h :: r => (c :: h) :: r

/-- Parse a nonempty decimal digit sequence. -/
def parseDigits (s : List Char) : Option Nat :=
  if !s.isEmpty && s.all Char.isDigit then
    some (s.foldl (fun acc c => 10 * acc + (c.toNat - 48)) 0)
  else none

/-- Burst descriptor: subswath token (with its index), polarization, 1-based
sequence index. -/
structure BurstDesc where
  subswath : List Char
  pol : List Char
  idx : Nat
  deriving DecidableEq, Repr

/-- Modelled from the spec: friendly burst-name parsing of the missing
Product Specializer: pattern subswath token, underscore, polarization,
underscore, 1-based decimal sequence, case-insensitive on input,
canonicalized to uppercase. -/
def parseBurstName (s : List Char) : Option BurstDesc :=
  match splitUnder (toUpperL s) with
  | [sw, pol, seq] =>
    if !sw.isEmpty && decide (pol ∈ canonicalPols) then
      match parseDigits seq with
      | some i => some ⟨sw, pol, i⟩
      | none => none
    else none
  | _ => none

/-- Dataset produced for one selected burst. -/
structure BurstDataset where
  bandCount : Nat
  complexData : Bool
  meta : List (List Char × List Char)
  deriving DecidableEq, Repr

/-- Error raised for an unrecognized burst name. -/
inductive BurstErr where
  | burstNotFound
  deriving DecidableEq, Repr

/-- Decimal text of a natural number. -/
def natToDec (n : Nat) : List Char := (Nat.repr n).toList

/-- Modelled from the spec: burst addressing of the missing Product
Specializer on a single-look-complex product: the friendly name is parsed
case-insensitively, canonicalized to uppercase, matched against the
available bursts and exposed as a single-band complex dataset with burst
metadata; an unrecognized name fails with BurstNotFound instead of falling
back to the whole-product catalog. -/
def openSLCBurst (req : List Char) (available : List BurstDesc) :
    Except BurstErr BurstDataset :=
  match parseBurstName req with
  | none => .error .burstNotFound
  | some d =>
    if available.any (fun b => decide (b = d)) then
      .ok ⟨1, true,
        [("EOPF_PRODUCT_TYPE".toList, "SLC".toList),
         ("EOPF_BURST_NAME".toList, toUpperL req),
         ("EOPF_BURST_SUBSWATH".toList, d.subswath),
         ("EOPF_BURST_POLARIZATION".toList, d.pol),
         ("EOPF_BURST_INDEX".toList, natToDec d.idx)]⟩
    else .error .burstNotFound

/-- C8: requesting the burst iw1_vv_001 (case-insensitive) on a
single-look-complex product that has it yields a dataset whose metadata
carries the canonical uppercase values IW1_VV_001, IW1, VV and index 1,
while requesting INVALID_BURST_NAME fails with BurstNotFound. -/
theorem c8_burst_selection_and_invalid (available : List BurstDesc)
    (hmem : (⟨"IW1".toList, "VV".toList, 1⟩ : BurstDesc) ∈ available) :
    (∃ ds, openSLCBurst "iw1_vv_001".toList available = .ok ds
      ∧ ds.bandCount = 1 ∧ ds.complexData = true
      ∧ metaFindS ds.meta "EOPF_BURST_NAME".toList
        = some "IW1_VV_001".toList
      ∧ metaFindS ds.meta "EOPF_BURST_SUBSWATH".toList = some "IW1".toList
      ∧ metaFindS ds.meta "EOPF_BURST_POLARIZATION".toList
        = some "VV".toList
      ∧ metaFindS ds.meta "EOPF_BURST_INDEX".toList = some "1".toList)
    ∧ openSLCBurst "INVALID_BURST_NAME".toList available
      = .error .burstNotFound := by
  constructor
  · have hparse : parseBurstName "iw1_vv_001".toList
        = some ⟨"IW1".toList, "VV".toList, 1⟩ := by decide
    have hany : available.any
        (fun b => decide (b = (⟨"IW1".toList, "VV".toList, 1⟩ : BurstDesc)))
        = true :=
      List.any_eq_true.mpr ⟨_, hmem, by simp⟩
    refine ⟨⟨1, true,
      [("EOPF_PRODUCT_TYPE".toList, "SLC".toList),
       ("EOPF_BURST_NAME".toList, "IW1_VV_001".toList),
       ("EOPF_BURST_SUBSWATH".toList, "IW1".toList),
       ("EOPF_BURST_POLARIZATION".toList, "VV".toList),
       ("EOPF_BURST_INDEX".toList, "1".toList)]⟩,
      ?_, rfl, rfl, rfl, rfl, rfl, rfl⟩
    unfold openSLCBurst
    rw [hparse]
    show (if available.any
        (fun b => decide (b = (⟨"IW1".toList, "VV".toList, 1⟩ : BurstDesc)))
      then Except.ok (⟨1, true,
        [("EOPF_PRODUCT_TYPE".toList, "SLC".toList),
         ("EOPF_BURST_NAME".toList, toUpperL "iw1_vv_001".toList),
         ("EOPF_BURST_SUBSWATH".toList, "IW1".toList),
         ("EOPF_BURST_POLARIZATION".toList, "VV".toList),
         ("EOPF_BURST_INDEX".toList, natToDec 1)]⟩ : BurstDataset)
      else Except.error BurstErr.burstNotFound) = _
    rw [if_pos hany]
    exact congrArg Except.ok (by decide)
  · have hparse : parseBurstName "INVALID_BURST_NAME".toList = none := by
      decide
    unfold openSLCBurst
    rw [hparse]

/-- Witness for C8 at a concrete one-burst availability list. -/
theorem c8_burst_selection_and_invalid_witness :
    (∃ ds, openSLCBurst "iw1_vv_001".toList
        [⟨"IW1".toList, "VV".toList, 1⟩] = .ok ds
      ∧ ds.bandCount = 1 ∧ ds.complexData = true
      ∧ metaFindS ds.meta "EOPF_BURST_NAME".toList
        = some "IW1_VV_001".toList
      ∧ metaFindS ds.meta "EOPF_BURST_SUBSWATH".toList = some "IW1".toList
      ∧ metaFindS ds.meta "EOPF_BURST_POLARIZATION".toList
        = some "VV".toList
      ∧ metaFindS ds.meta "EOPF_BURST_INDEX".toList = some "1".toList)
    ∧ openSLCBurst "INVALID_BURST_NAME".toList
        [⟨"IW1".toList, "VV".toList, 1⟩] = .error .burstNotFound :=
  c8_burst_selection_and_invalid [⟨"IW1".toList, "VV".toList, 1⟩]
    (by decide)
